import Mathlib

/-!
Shallow embedding of the appointment-scheduler normalization and decision
pipeline (`src/services/normalizationService.js`, `src/services/aiService.js`,
`src/controllers/appointmentController.js`).

Modelling conventions:
* JS strings are Lean `String`s; phrase scanning works on `List Char`.
* A timezone-local instant is `DateTime`: `day` is the local calendar day as a
  day count since 1970-01-01 (proleptic Gregorian), `mins` the minutes since
  local midnight.  `utcToZonedTime(new Date(), timezone)` — the ambient wall
  clock rendered in the target timezone — is modelled as an explicit `now`
  parameter of that type.
* JS number comparisons on the extraction confidence are exact decimal
  comparisons, modelled with `ℚ`.
* JS falsiness of a nullable string (`!s`) is `jsFalsyOpt`: null or `""`.
-/

namespace Sched

/-- Character list of a JS string. -/
abbrev Chars := List Char

/-- The whitespace characters recognised by JS `trim` / regex `\s`
(restricted to the ASCII range; the phrases handled here contain none of the
Unicode-only whitespace code points). -/
def isWs (c : Char) : Bool :=
  c == ' ' || c == '\t' || c == '\n' || c == '\r' || c == '\x0b' || c == '\x0c'

/-- JS `String.prototype.trim` on a character list. -/
def trimChars (cs : Chars) : Chars :=
  ((cs.dropWhile isWs).reverse.dropWhile isWs).reverse

/-- `s.toLowerCase().trim()` as performed on every phrase before lexical
matching (ASCII lowercasing; the recognised keywords are all ASCII). -/
def jsLowerTrim (s : String) : Chars :=
  trimChars (s.data.map Char.toLower)

/-- `pat` is a leading segment of `txt` (helper for substring search). -/
def strStarts : Chars → Chars → Bool
  | [], _ => true
  | _ :: _, [] => false
  | p :: ps, t :: ts => p == t && strStarts ps ts

/-- JS `txt.includes(pat)`: `pat` occurs contiguously inside `txt`. -/
def strHas (txt pat : Chars) : Bool :=
  match txt with
  | [] => strStarts pat []
  | _ :: ts => strStarts pat txt || strHas ts pat

/-- `txt.includes(pat)` with a string pattern. -/
def hasStr (txt : Chars) (pat : String) : Bool :=
  strHas txt pat.data

/-- Gregorian leap year. -/
def isLeap (y : Int) : Bool :=
  y % 4 == 0 && (y % 100 != 0 || y % 400 == 0)

/-- Days in a month of the proleptic Gregorian calendar. -/
def daysInMonth (y : Int) (m : Nat) : Nat :=
  if m = 2 then (if isLeap y then 29 else 28)
  else if m = 4 ∨ m = 6 ∨ m = 9 ∨ m = 11 then 30
  else 31

/-- Civil date to day count since 1970-01-01 (standard era-based conversion,
valid for all years via floor division). -/
def daysFromCivil (y : Int) (m d : Nat) : Int :=
  let y2 : Int := if m ≤ 2 then y - 1 else y
  let era : Int := Int.fdiv y2 400
  let yoe : Int := y2 - era * 400
  let mp : Int := if 2 < m then (m : Int) - 3 else (m : Int) + 9
  let doy : Int := (153 * mp + 2) / 5 + (d : Int) - 1
  let doe : Int := yoe * 365 + yoe / 4 - yoe / 100 + doy
  era * 146097 + doe - 719468

/-- Day count since 1970-01-01 back to a civil `(year, month, day)` triple
(inverse of `daysFromCivil`). -/
def civilFromDays (z0 : Int) : Int × Nat × Nat :=
  let z : Int := z0 + 719468
  let era : Int := Int.fdiv z 146097
  let doe : Int := z - era * 146097
  let yoe : Int := (doe - doe / 1460 + doe / 36524 - doe / 146096) / 365
  let y : Int := yoe + era * 400
  let doy : Int := doe - (365 * yoe + yoe / 4 - yoe / 100)
  let mp : Int := (5 * doy + 2) / 153
  let d : Int := doy - (153 * mp + 2) / 5 + 1
  let m : Int := if mp < 10 then mp + 3 else mp - 9
  (if m ≤ 2 then y + 1 else y, m.toNat, d.toNat)

/-- Two-digit zero-padded rendering (`String(n).padStart(2, '0')` for the
`n < 100` values produced here). -/
def pad2 (n : Nat) : String :=
  String.mk [Nat.digitChar (n / 10 % 10), Nat.digitChar (n % 10)]

/-- Four-digit zero-padded year rendering (`format`'s `yyyy`; years outside
0–9999 — unreachable from the parsed formats — are rendered modulo 10000). -/
def pad4 (n : Nat) : String :=
  String.mk [Nat.digitChar (n / 1000 % 10), Nat.digitChar (n / 100 % 10),
    Nat.digitChar (n / 10 % 10), Nat.digitChar (n % 10)]

/-- `format(targetDate, 'yyyy-MM-dd')` of a local day count. -/
def dateStrOfDay (day : Int) : String :=
  match civilFromDays day with
  | (y, m, d) => pad4 y.natAbs ++ "-" ++ pad2 m ++ "-" ++ pad2 d

/-- A timezone-local instant: local calendar day (day count since 1970-01-01)
plus minutes since local midnight. -/
structure DateTime where
  day : Int
  mins : Nat
deriving DecidableEq, Repr

/-- `startOfDay` of date-fns: truncate to local midnight. -/
def startOfDayDT (t : DateTime) : DateTime := ⟨t.day, 0⟩

/-- `add(t, { days: n })` of date-fns. -/
def addDaysDT (t : DateTime) (n : Int) : DateTime := ⟨t.day + n, t.mins⟩

/-- `setHours` of date-fns: replace the hour component. -/
def setHoursDT (t : DateTime) (h : Nat) : DateTime := ⟨t.day, h * 60 + t.mins % 60⟩

/-- `setMinutes` of date-fns: replace the minute component. -/
def setMinutesDT (t : DateTime) (m : Nat) : DateTime := ⟨t.day, t.mins / 60 * 60 + m⟩

/-- JS `Date.prototype.getDay` on the local date: 0 = Sunday … 6 = Saturday
(1970-01-01 was a Thursday, weekday index 4). -/
def weekdayOf (day : Int) : Int := (day + 4) % 7

/-- Decimal value of an ASCII digit character. -/
def digitVal (c : Char) : Nat := c.toNat - 48

/-- Greedily split off up to `maxLen` leading ASCII digits. -/
def grabDigits : Nat → Chars → Chars × Chars
  | 0, cs => ([], cs)
  | _ + 1, [] => ([], [])
  | n + 1, c :: cs =>
    if c.isDigit then
      let r := grabDigits n cs
      (c :: r.1, r.2)
    else ([], c :: cs)

/-- Numeric value of a digit run. -/
def digitsVal (ds : Chars) : Nat := ds.foldl (fun a c => a * 10 + digitVal c) 0

/-- A date-fns numeric parse token (`yyyy`, `MM`, `dd`): consumes one to
`maxLen` digits greedily, failing on a non-digit. -/
def takeNum (maxLen : Nat) (cs : Chars) : Option (Nat × Chars) :=
  match grabDigits maxLen cs with
  | ([], _) => none
  | (ds, rest) => some (digitsVal ds, rest)

/-- A literal character of a date-fns format string. -/
def litChar (c : Char) (cs : Chars) : Option Chars :=
  match cs with
  | c2 :: rest => if c2 == c then some rest else none
  | [] => none

/-- `1 ≤ m ≤ 12` and `1 ≤ d ≤ daysInMonth`: the validity check date-fns
`parse` applies before producing a date (out-of-range fields give an invalid
date, which the caller's `isNaN` guard rejects). -/
def validCivil (y : Int) (m d : Nat) : Bool :=
  1 ≤ m && m ≤ 12 && 1 ≤ d && d ≤ daysInMonth y m

/-- Model of date-fns `parse(s, 'yyyy-MM-dd', now)`: sequential token
consumption with no backtracking, the whole string must be consumed, and the
parsed fields must form a valid calendar date.  Sub-day units are reset, so a
success is the local day count at local midnight. -/
def parseYMD (cs : Chars) : Option Int :=
  (takeNum 4 cs).bind fun yr =>
  (litChar '-' yr.2).bind fun r2 =>
  (takeNum 2 r2).bind fun mr =>
  (litChar '-' mr.2).bind fun r4 =>
  (takeNum 2 r4).bind fun dr =>
  if dr.2 = [] ∧ validCivil (yr.1 : Int) mr.1 dr.1 then
    some (daysFromCivil (yr.1 : Int) mr.1 dr.1)
  else none

/-- Model of date-fns `parse(s, 'dd/MM/yyyy', now)` (see `parseYMD`). -/
def parseDMY (cs : Chars) : Option Int :=
  (takeNum 2 cs).bind fun dr =>
  (litChar '/' dr.2).bind fun r2 =>
  (takeNum 2 r2).bind fun mr =>
  (litChar '/' mr.2).bind fun r4 =>
  (takeNum 4 r4).bind fun yr =>
  if yr.2 = [] ∧ validCivil (yr.1 : Int) mr.1 dr.1 then
    some (daysFromCivil (yr.1 : Int) mr.1 dr.1)
  else none

/-- Model of date-fns `parse(s, 'MM/dd/yyyy', now)` (see `parseYMD`). -/
def parseMDY (cs : Chars) : Option Int :=
  (takeNum 2 cs).bind fun mr =>
  (litChar '/' mr.2).bind fun r2 =>
  (takeNum 2 r2).bind fun dr =>
  (litChar '/' dr.2).bind fun r4 =>
  (takeNum 4 r4).bind fun yr =>
  if yr.2 = [] ∧ validCivil (yr.1 : Int) mr.1 dr.1 then
    some (daysFromCivil (yr.1 : Int) mr.1 dr.1)
  else none

/-- The en-US abbreviated month names matched by the `MMM` token. -/
def monthAbbrevs : List String :=
  ["jan", "feb", "mar", "apr", "may", "jun", "jul", "aug", "sep", "oct", "nov", "dec"]

/-- The `MMM` token: a case-insensitive three-letter month abbreviation,
yielding the one-based month number. -/
def findMonthAbbrev (cs : Chars) : Option (Nat × Chars) :=
  match cs with
  | c1 :: c2 :: c3 :: rest =>
    match monthAbbrevs.findIdx? (fun a => a == String.mk [c1.toLower, c2.toLower, c3.toLower]) with
    | some i => some (i + 1, rest)
    | none => none
  | _ => none

/-- Model of date-fns `parse(s, 'MMM dd, yyyy', now)` (see `parseYMD`). -/
def parseMonDD (cs : Chars) : Option Int :=
  (findMonthAbbrev cs).bind fun mr =>
  (litChar ' ' mr.2).bind fun r2 =>
  (takeNum 2 r2).bind fun dr =>
  (litChar ',' dr.2).bind fun r4 =>
  (litChar ' ' r4).bind fun r5 =>
  (takeNum 4 r5).bind fun yr =>
  if yr.2 = [] ∧ validCivil (yr.1 : Int) mr.1 dr.1 then
    some (daysFromCivil (yr.1 : Int) mr.1 dr.1)
  else none

/-- The absolute-format fallback loop of `normalizeDatePhrase`: the raw
(uncased, untrimmed) phrase is tried against the fixed format list
`['yyyy-MM-dd', 'dd/MM/yyyy', 'MM/dd/yyyy', 'MMM dd, yyyy']`, first success
wins.  A success is the parsed local day count (at local midnight). -/
def parseAbsoluteDate (s : String) : Option Int :=
  parseYMD s.data <|> parseDMY s.data <|> parseMDY s.data <|> parseMonDD s.data

/-- `days` array of the `next <weekday>` branch, in source order. -/
def weekdayNamesJS : List String :=
  ["sunday", "monday", "tuesday", "wednesday", "thursday", "friday", "saturday"]

/-- The `phrase.includes('next')` branch body:
`days.find(day => phrase.includes(day))` (modelled by `findIdx?`, which
returns the index `days.indexOf(dayMatch)` of the first entry that occurs in
the phrase — the entries are distinct), then
`daysToAdd = targetDayIndex - currentDayIndex`, bumped by 7 when ≤ 0, and
`add(startOfDay(now), { days: daysToAdd })`.  No weekday found leaves
`targetDate` null. -/
def nextWeekdayTarget (phrase : Chars) (now : DateTime) : Option DateTime :=
  match weekdayNamesJS.findIdx? (fun d => strHas phrase d.data) with
  | some targetIdx =>
    let diff : Int := (targetIdx : Int) - weekdayOf now.day
    let daysToAdd : Int := if diff ≤ 0 then diff + 7 else diff
    some (addDaysDT (startOfDayDT now) daysToAdd)
  | none => none

/-- The `targetDate` computation of `normalizeDatePhrase`: the lexical
branches are tried in source order — `'today'`, `'tomorrow'`,
`'day after tomorrow'`, `'next'` — on the lowercased trimmed phrase, and the
final `else` runs the absolute-format loop on the raw phrase. -/
def dateTarget (raw : String) (phrase : Chars) (now : DateTime) : Option DateTime :=
  if hasStr phrase "today" then some (startOfDayDT now)
  else if hasStr phrase "tomorrow" then some (addDaysDT (startOfDayDT now) 1)
  else if hasStr phrase "day after tomorrow" then some (addDaysDT (startOfDayDT now) 2)
  else if hasStr phrase "next" then nextWeekdayTarget phrase now
  else (parseAbsoluteDate raw).map fun d => ⟨d, 0⟩

/-- The `{ date, datetime }` value returned by a successful
`normalizeDatePhrase`. -/
structure DateInfo where
  date : String
  datetime : DateTime
deriving DecidableEq, Repr

/-- JS falsiness of a nullable string: null or the empty string. -/
def jsFalsyOpt (o : Option String) : Bool :=
  match o with
  | none => true
  | some s => s == ""

/-- `normalizeDatePhrase(datePhrase, timezone)` of
`src/services/normalizationService.js`.  The reference instant
`utcToZonedTime(new Date(), timezone)` is the explicit `now` parameter.  A
falsy phrase returns null; otherwise the `targetDate` branch cascade runs and
a non-null target is packaged as `{ date: format(targetDate, 'yyyy-MM-dd'),
datetime: targetDate }`. -/
def normalizeDatePhrase (datePhrase : Option String) (timezone : String)
    (now : DateTime) : Option DateInfo :=
  match datePhrase with
  | none => none
  | some dp =>
    if dp == "" then none
    else (dateTarget dp (jsLowerTrim dp) now).map fun t => ⟨dateStrOfDay t.day, t⟩

/-- The `{ time, hours, minutes }` value returned by a successful
`normalizeTimePhrase`. -/
structure TimeInfo where
  time : String
  hours : Nat
  minutes : Nat
deriving DecidableEq, Repr

/-- The 24-hour regex `/(\d{1,2}):(\d{2})/` attempted at one position:
the greedy two-digit hour alternative first, then the one-digit hour. -/
def match24At (cs : Chars) : Option (Nat × Nat) :=
  match cs with
  | a :: b :: c :: d :: rest =>
    (match rest with
     | e :: _ =>
       if a.isDigit && b.isDigit && c == ':' && d.isDigit && e.isDigit then
         some (digitVal a * 10 + digitVal b, digitVal d * 10 + digitVal e)
       else none
     | [] => none).orElse fun _ =>
      if a.isDigit && b == ':' && c.isDigit && d.isDigit then
        some (digitVal a, digitVal c * 10 + digitVal d)
      else none
  | _ => none

/-- Unanchored search of `/(\d{1,2}):(\d{2})/`: leftmost match wins. -/
def findTime24 : Chars → Option (Nat × Nat)
  | [] => none
  | c :: cs => (match24At (c :: cs)).orElse fun _ => findTime24 cs

/-- The regex alternative `(am|pm)` preceded by `\s*`: skip the maximal run
of whitespace (backtracking into it cannot help, since neither literal starts
with whitespace), then read `am` or `pm`; `true` means `pm`. -/
def meridiemAt (cs : Chars) : Option Bool :=
  match cs.dropWhile isWs with
  | a :: m2 :: _ =>
    if m2 == 'm' then
      if a == 'a' then some false
      else if a == 'p' then some true
      else none
    else none
  | _ => none

/-- The optional greedy group `(?::(\d{2}))?` attempted at one position. -/
def colonMM (cs : Chars) : Option (Nat × Chars) :=
  match cs with
  | c :: a :: b :: rest =>
    if c == ':' && a.isDigit && b.isDigit then
      some (digitVal a * 10 + digitVal b, rest)
    else none
  | _ => none

/-- After the hour digits of `/(\d{1,2})(?::(\d{2}))?\s*(am|pm)/`: try the
optional minutes group greedily; if the rest of the pattern then fails,
backtrack and retry without the group. -/
def rest12 (cs : Chars) : Option (Option Nat × Bool) :=
  match colonMM cs with
  | some (mm, rest) =>
    match meridiemAt rest with
    | some pm => some (some mm, pm)
    | none => (meridiemAt cs).map fun pm => (none, pm)
  | none => (meridiemAt cs).map fun pm => (none, pm)

/-- The 12-hour regex attempted at one position: greedy two-digit hour first,
backtracking to a one-digit hour. -/
def match12At (cs : Chars) : Option (Nat × Option Nat × Bool) :=
  match cs with
  | a :: b :: rest =>
    if a.isDigit && b.isDigit then
      match rest12 rest with
      | some (mm, pm) => some (digitVal a * 10 + digitVal b, mm, pm)
      | none => (rest12 (b :: rest)).map fun r => (digitVal a, r.1, r.2)
    else if a.isDigit then
      (rest12 (b :: rest)).map fun r => (digitVal a, r.1, r.2)
    else none
  | _ => none

/-- Unanchored search of `/(\d{1,2})(?::(\d{2}))?\s*(am|pm)/`. -/
def findTime12 : Chars → Option (Nat × Option Nat × Bool)
  | [] => none
  | c :: cs => (match12At (c :: cs)).orElse fun _ => findTime12 cs

/-- The `HH:MM` rendering of the returned time (both components are below
100 wherever this is evaluated, so `padStart(2, '0')` is exact two-digit
padding). -/
def timeStr (h m : Nat) : String := pad2 h ++ ":" ++ pad2 m

/-- `normalizeTimePhrase(timePhrase)` of
`src/services/normalizationService.js`.  `hours`/`minutes` start at 0; a
24-hour match sets them directly; otherwise a 12-hour match sets them with
the meridiem adjustment (`pm` adds 12 unless the hour is 12, `12am` becomes
0); otherwise they keep their zero initial values.  The final range check
admits whatever the variables hold at that point. -/
def normalizeTimePhrase (timePhrase : Option String) : Option TimeInfo :=
  match timePhrase with
  | none => none
  | some tp =>
    if tp == "" then none
    else
      let phrase := jsLowerTrim tp
      let hm : Nat × Nat :=
        match findTime24 phrase with
        | some (h, m) => (h, m)
        | none =>
          match findTime12 phrase with
          | some (h, mm, pm) =>
            let m := mm.getD 0
            let h2 := if pm && h != 12 then h + 12
                      else if !pm && h == 12 then 0
                      else h
            (h2, m)
          | none => (0, 0)
      if hm.1 < 24 && hm.2 < 60 then some ⟨timeStr hm.1 hm.2, hm.1, hm.2⟩
      else none

/-- The raw extraction produced by the external entity extractor
(`aiService.js`): three nullable phrase fields, a confidence score and a
clarity flag. -/
structure RawEntities where
  date_phrase : Option String
  time_phrase : Option String
  department : Option String
  confidence : ℚ
  is_clear : Bool
deriving DecidableEq

/-- The `NormalizedAppointment` record returned by `normalizeEntities`. -/
structure NormalizedAppointment where
  date : Option String
  time : Option String
  datetime : Option String
  department : Option String
  timezone : String
deriving DecidableEq, Repr

/-- The `x || null` coercion applied to the date/time fields: a falsy value
(null or `""`) becomes null. -/
def jsOrNullStr (o : Option String) : Option String :=
  match o with
  | none => none
  | some s => if s == "" then none else some s

/-- `zonedTimeToUtc(dt, timezone).toISOString()`.  The IANA offset lookup is
an external library concern; only the serialized shape (and, for the claims,
presence versus null) is modelled — the local components are rendered with a
`Z` suffix. -/
def isoUTC (t : DateTime) (timezone : String) : String :=
  dateStrOfDay t.day ++ "T" ++ pad2 (t.mins / 60) ++ ":" ++ pad2 (t.mins % 60) ++ ":00.000Z"

/-- `normalizeEntities(entities, timezone)` of
`src/services/normalizationService.js`: parse both phrases, compose the UTC
instant when both parses succeeded (`setHours`, `setMinutes`,
`zonedTimeToUtc`), and return the record with the department passed through
verbatim. -/
def normalizeEntities (entities : RawEntities) (timezone : String)
    (now : DateTime) : NormalizedAppointment :=
  let dateInfo := normalizeDatePhrase entities.date_phrase timezone now
  let timeInfo := normalizeTimePhrase entities.time_phrase
  let datetime : Option String :=
    match dateInfo, timeInfo with
    | some di, some ti =>
      some (isoUTC (setMinutesDT (setHoursDT di.datetime ti.hours) ti.minutes) timezone)
    | _, _ => none
  { date := jsOrNullStr (dateInfo.map DateInfo.date)
    time := jsOrNullStr (timeInfo.map TimeInfo.time)
    datetime := datetime
    department := entities.department
    timezone := timezone }

/-- `needsClarification(entities)` of `src/services/aiService.js`
(unnamed/part_001 lines 159–168). -/
def needsClarification (entities : RawEntities) : Bool :=
  if entities.confidence < 6 / 10 then true
  else if jsFalsyOpt entities.date_phrase || jsFalsyOpt entities.time_phrase
      || jsFalsyOpt entities.department then true
  else !entities.is_clear

/-- `generateClarificationMessage(entities)` of `src/services/aiService.js`. -/
def generateClarificationMessage (entities : RawEntities) : String :=
  let missing : List String :=
    (if jsFalsyOpt entities.date_phrase then ["Date (e.g., \"tomorrow\", \"Jan 25\")"] else []) ++
    (if jsFalsyOpt entities.time_phrase then ["Time (e.g., \"3pm\", \"10:00\")"] else []) ++
    (if jsFalsyOpt entities.department then ["Department (e.g., \"Cardiology\", \"Dentist\")"] else [])
  if 0 < missing.length then "Please provide: " ++ String.intercalate ", " missing
  else "Please provide the appointment date, time, and department."

/-- The routing outcome of the controller: a clarification response or a
committed appointment. -/
inductive Decision where
  | clarify (message : String)
  | commit (normalized : NormalizedAppointment)
deriving DecidableEq

/-- The routing decision of `processTextParse` / `processImageUpload`
(`src/controllers/appointmentController.js`): the clarification gate first,
then the `!normalized.date || !normalized.time` check with the fixed message,
then the commit path. -/
def route (entities : RawEntities) (normalized : NormalizedAppointment) : Decision :=
  if needsClarification entities then
    Decision.clarify (generateClarificationMessage entities)
  else if jsFalsyOpt normalized.date || jsFalsyOpt normalized.time then
    Decision.clarify "Ambiguous date/time or department"
  else Decision.commit normalized

/-- JS `a || b` on nullable strings: `b` when `a` is falsy. -/
def jsOrStr (a b : Option String) : Option String :=
  if jsFalsyOpt a then b else a

/-- The `department` reported in a committed appointment:
`normalized.department || entities.department || "General"`. -/
def committedDepartment (normalized : NormalizedAppointment)
    (entities : RawEntities) : String :=
  match jsOrStr (jsOrStr normalized.department entities.department) (some "General") with
  | some s => s
  | none => ""

/-! ## Auxiliary lemmas -/

lemma pad2_length (n : Nat) : (pad2 n).length = 2 := rfl

lemma timeStr_length (h m : Nat) : (timeStr h m).length = 5 := rfl

lemma timeStr_ne_empty (h m : Nat) : timeStr h m ≠ "" := by
  intro he
  have h5 := timeStr_length h m
  rw [he] at h5
  exact absurd h5 (by decide)

lemma dateStrOfDay_length (d : Int) : (dateStrOfDay d).length = 10 := by
  rcases hc : civilFromDays d with ⟨y, m, dd⟩
  unfold dateStrOfDay
  rw [hc]
  rfl

lemma dateStrOfDay_ne_empty (d : Int) : dateStrOfDay d ≠ "" := by
  intro he
  have h10 := dateStrOfDay_length d
  rw [he] at h10
  exact absurd h10 (by decide)

lemma jsFalsyOpt_jsOrNullStr (o : Option String) :
    jsFalsyOpt (jsOrNullStr o) = (jsOrNullStr o).isNone := by
  cases o with
  | none => rfl
  | some s =>
    by_cases h : s == ""
    · simp [jsOrNullStr, h, jsFalsyOpt]
    · simp [jsOrNullStr, h, jsFalsyOpt]

/-- Every successful `normalizeDatePhrase` call went through a non-falsy
phrase and packaged a `dateTarget` success with its `yyyy-MM-dd` rendering. -/
lemma normalizeDatePhrase_some_eq {dp : Option String} {tz : String} {now : DateTime}
    {di : DateInfo} (h : normalizeDatePhrase dp tz now = some di) :
    ∃ s t, dp = some s ∧ (s == "") = false ∧ dateTarget s (jsLowerTrim s) now = some t ∧
      di = ⟨dateStrOfDay t.day, t⟩ := by
  cases dp with
  | none => simp [normalizeDatePhrase] at h
  | some s =>
    unfold normalizeDatePhrase at h
    dsimp only at h
    by_cases he : (s == "") = true
    · rw [if_pos he] at h
      cases h
    · rw [if_neg he] at h
      cases ht : dateTarget s (jsLowerTrim s) now with
      | none => rw [ht] at h; cases h
      | some t =>
        rw [ht] at h
        refine ⟨s, t, rfl, Bool.not_eq_true _ ▸ he, ht, ?_⟩
        exact (Option.some_injective _ h).symm

lemma normalizeDatePhrase_date_ne {dp : Option String} {tz : String} {now : DateTime}
    {di : DateInfo} (h : normalizeDatePhrase dp tz now = some di) : di.date ≠ "" := by
  obtain ⟨s, t, _, _, _, hdi⟩ := normalizeDatePhrase_some_eq h
  rw [hdi]
  exact dateStrOfDay_ne_empty t.day

/-- Every successful `normalizeTimePhrase` call returns the `HH:MM` rendering
of its hour/minute pair. -/
lemma normalizeTimePhrase_some_eq {tp : Option String} {ti : TimeInfo}
    (h : normalizeTimePhrase tp = some ti) : ti = ⟨timeStr ti.hours ti.minutes, ti.hours, ti.minutes⟩ := by
  cases tp with
  | none => simp [normalizeTimePhrase] at h
  | some s =>
    unfold normalizeTimePhrase at h
    dsimp only at h
    by_cases he : (s == "") = true
    · rw [if_pos he] at h
      cases h
    · rw [if_neg he] at h
      split at h
      · cases h
        rfl
      · cases h

lemma normalizeTimePhrase_time_ne {tp : Option String} {ti : TimeInfo}
    (h : normalizeTimePhrase tp = some ti) : ti.time ≠ "" := by
  have hs := normalizeTimePhrase_some_eq h
  rw [show ti.time = timeStr ti.hours ti.minutes from congrArg TimeInfo.time hs]
  exact timeStr_ne_empty ti.hours ti.minutes

lemma nextWeekdayTarget_mins {phrase : Chars} {now : DateTime} {t : DateTime}
    (h : nextWeekdayTarget phrase now = some t) : t.mins = 0 := by
  unfold nextWeekdayTarget at h
  split at h
  · injection h with h2
    rw [← h2]
    rfl
  · cases h

/-- Every `targetDate` the date parser produces sits at local midnight. -/
lemma dateTarget_mins {raw : String} {phrase : Chars} {now : DateTime} {t : DateTime}
    (h : dateTarget raw phrase now = some t) : t.mins = 0 := by
  unfold dateTarget at h
  split_ifs at h with h1 h2 h3 h4
  · injection h with h2
    rw [← h2]
    rfl
  · injection h with h2
    rw [← h2]
    rfl
  · injection h with h2
    rw [← h2]
    rfl
  · exact nextWeekdayTarget_mins h
  · cases hp : parseAbsoluteDate raw with
    | none => rw [hp] at h; cases h
    | some d =>
      rw [hp] at h
      injection h with h2
      rw [← h2]

/-! ## Claim theorems -/

/-- C7: every non-null `parseDatePhrase` result — relative keyword or
absolute format — has its anchor instant truncated to local midnight
(time-of-day components all zero). -/
theorem dateResult_local_midnight (dp : Option String) (tz : String) (now : DateTime)
    (di : DateInfo) (h : normalizeDatePhrase dp tz now = some di) :
    di.datetime.mins = 0 := by
  obtain ⟨s, t, _, _, ht, hdi⟩ := normalizeDatePhrase_some_eq h
  rw [hdi]
  exact dateTarget_mins ht

/-- Witness for C7 at the concrete phrase `"today"` with a reference instant
137 minutes past local midnight of day 5. -/
theorem dateResult_local_midnight_witness :
    normalizeDatePhrase (some "today") "Asia/Kolkata" ⟨5, 137⟩ =
      some ⟨"1970-01-06", ⟨5, 0⟩⟩ ∧
    (DateInfo.mk "1970-01-06" ⟨5, 0⟩).datetime.mins = 0 :=
  ⟨by decide,
   dateResult_local_midnight (some "today") "Asia/Kolkata" ⟨5, 137⟩
     ⟨"1970-01-06", ⟨5, 0⟩⟩ (by decide)⟩

/-- C3 (code-bug evaluation): on the phrase `"noon"`, which matches neither
time pattern, `normalizeTimePhrase` returns the zero-initialised
`{time: "00:00", hours: 0, minutes: 0}` instead of the null the spec
requires — the untouched zeros pass the final range check. -/
theorem timePhrase_noMatch_yields_midnight :
    normalizeTimePhrase (some "noon") = some ⟨"00:00", 0, 0⟩ := by decide

/-- C5 (code-bug evaluation): `"day after tomorrow"` contains the substring
`"tomorrow"`, whose branch is tested first, so the parser returns now+1 day —
the `'day after tomorrow'` branch claiming now+2 is unreachable. -/
theorem dayAfterTomorrow_hits_tomorrow_branch :
    (normalizeDatePhrase (some "day after tomorrow") "Asia/Kolkata" ⟨0, 0⟩).map
        DateInfo.datetime = some ⟨1, 0⟩ ∧
    (normalizeDatePhrase (some "day after tomorrow") "Asia/Kolkata" ⟨0, 0⟩).map
        DateInfo.datetime ≠ some ⟨2, 0⟩ := by
  constructor
  · decide
  · decide

/-- C9: `normalize` is total by construction (a Lean function); the
department field is passed through verbatim, the timezone is the one
supplied, and each of the date/time fields is null exactly when its phrase
parser failed — a parse failure degrades only its own field. -/
theorem normalize_total_fields (e : RawEntities) (tz : String) (now : DateTime) :
    (normalizeEntities e tz now).department = e.department ∧
    (normalizeEntities e tz now).timezone = tz ∧
    ((normalizeEntities e tz now).date = none ↔
      normalizeDatePhrase e.date_phrase tz now = none) ∧
    ((normalizeEntities e tz now).time = none ↔
      normalizeTimePhrase e.time_phrase = none) := by
  refine ⟨rfl, rfl, ?_, ?_⟩
  · cases hd : normalizeDatePhrase e.date_phrase tz now with
    | none => simp [normalizeEntities, hd, jsOrNullStr]
    | some di =>
      have hne : di.date ≠ "" := normalizeDatePhrase_date_ne hd
      simp [normalizeEntities, hd, jsOrNullStr, hne]
  · cases ht : normalizeTimePhrase e.time_phrase with
    | none => simp [normalizeEntities, ht, jsOrNullStr]
    | some ti =>
      have hne : ti.time ≠ "" := normalizeTimePhrase_time_ne ht
      simp [normalizeEntities, ht, jsOrNullStr, hne]

/-- C4: the composed `datetime` of a `normalize` output is non-null exactly
when both the `date` and the `time` fields are non-null. -/
theorem datetime_iff_date_and_time (e : RawEntities) (tz : String) (now : DateTime) :
    (normalizeEntities e tz now).datetime ≠ none ↔
      ((normalizeEntities e tz now).date ≠ none ∧
        (normalizeEntities e tz now).time ≠ none) := by
  cases hd : normalizeDatePhrase e.date_phrase tz now with
  | none => simp [normalizeEntities, hd, jsOrNullStr]
  | some di =>
    cases ht : normalizeTimePhrase e.time_phrase with
    | none => simp [normalizeEntities, hd, ht, jsOrNullStr]
    | some ti =>
      have hdne : di.date ≠ "" := normalizeDatePhrase_date_ne hd
      have htne : ti.time ≠ "" := normalizeTimePhrase_time_ne ht
      simp [normalizeEntities, hd, ht, jsOrNullStr, hdne, htne]

/-- C2: the clarification gate fires exactly on low confidence (< 0.6), a
missing phrase field (null or — JS falsiness — empty), or an unclear request;
equivalently it returns `false` only when confidence ≥ 0.6, all three phrase
fields are present, and `is_clear` is set. -/
theorem needsClarification_iff (e : RawEntities) :
    needsClarification e = true ↔
      (e.confidence < 6 / 10 ∨ jsFalsyOpt e.date_phrase = true ∨
        jsFalsyOpt e.time_phrase = true ∨ jsFalsyOpt e.department = true ∨
        e.is_clear = false) := by
  unfold needsClarification
  split_ifs with h1 h2
  · simp [h1]
  · have h2b := h2
    simp only [Bool.or_eq_true] at h2b
    simp only [eq_self_iff_true, true_iff]
    rcases h2b with (hb | hb) | hb
    · exact Or.inr (Or.inl hb)
    · exact Or.inr (Or.inr (Or.inl hb))
    · exact Or.inr (Or.inr (Or.inr (Or.inl hb)))
  · simp only [Bool.or_eq_true, not_or] at h2
    simp [h1, h2.1.1, h2.1.2, h2.2, Bool.not_eq_true']

/-- C1: the routing decision is, in this order: gate failure clarifies with
the generated message; then a null normalized date or time clarifies with the
fixed "Ambiguous date/time or department" message; otherwise the normalized
record commits. -/
theorem routing_decision (e : RawEntities) (tz : String) (now : DateTime) :
    route e (normalizeEntities e tz now) =
      if needsClarification e then
        Decision.clarify (generateClarificationMessage e)
      else if (normalizeEntities e tz now).date = none ∨
          (normalizeEntities e tz now).time = none then
        Decision.clarify "Ambiguous date/time or department"
      else Decision.commit (normalizeEntities e tz now) := by
  unfold route
  cases hcl : needsClarification e with
  | true => simp
  | false =>
    simp only [Bool.false_eq_true, if_false]
    refine if_congr ?_ rfl rfl
    have hd : jsFalsyOpt (normalizeEntities e tz now).date =
        ((normalizeEntities e tz now).date).isNone :=
      jsFalsyOpt_jsOrNullStr ((normalizeDatePhrase e.date_phrase tz now).map DateInfo.date)
    have ht : jsFalsyOpt (normalizeEntities e tz now).time =
        ((normalizeEntities e tz now).time).isNone :=
      jsFalsyOpt_jsOrNullStr ((normalizeTimePhrase e.time_phrase).map TimeInfo.time)
    rw [Bool.or_eq_true, hd, ht]
    simp [Option.isNone_iff_eq_none]

/-- C8: whenever the routing decision commits, the department reported in the
committed appointment is the first non-null link of the chain
`normalized.department → entities.department → "General"`, and that first
link is in fact the non-null `normalized.department`. -/
theorem committed_department_chain (e : RawEntities) (tz : String) (now : DateTime)
    (m : NormalizedAppointment)
    (h : route e (normalizeEntities e tz now) = Decision.commit m) :
    committedDepartment m e = (m.department <|> e.department).getD "General" ∧
      m.department ≠ none := by
  unfold route at h
  cases hcl : needsClarification e with
  | true => rw [hcl] at h; simp at h
  | false =>
    rw [hcl] at h
    simp only [Bool.false_eq_true, if_false] at h
    by_cases hb : (jsFalsyOpt (normalizeEntities e tz now).date ||
        jsFalsyOpt (normalizeEntities e tz now).time) = true
    · rw [if_pos hb] at h
      cases h
    · rw [if_neg hb] at h
      have hm : m = normalizeEntities e tz now := by
        injection h with h2
        exact h2.symm
      have hdept : m.department = e.department := by rw [hm]; rfl
      -- the gate being closed forces a truthy raw department
      unfold needsClarification at hcl
      split_ifs at hcl with hconf hfields
      · simp only [Bool.or_eq_true, not_or] at hfields
        obtain ⟨⟨-, -⟩, hdep⟩ := hfields
        cases hde : e.department with
        | none => rw [hde] at hdep; exact absurd rfl hdep
        | some s =>
          rw [hde] at hdep
          have hs : (s == "") = false := by
            cases hq : s == ""
            · rfl
            · exact absurd (by simp [jsFalsyOpt, hq] : jsFalsyOpt (some s) = true) hdep
          constructor
          · rw [committedDepartment, jsOrStr, jsOrStr, hdept, hde]
            simp [jsFalsyOpt, hs, Option.orElse]
          · rw [hdept, hde]
            exact Option.some_ne_none s

/-- A fully-specified extraction used to exercise the commit path. -/
def entitiesW : RawEntities :=
  ⟨some "tomorrow", some "3pm", some "Dentist", 9 / 10, true⟩

/-- Witness for C8: the concrete extraction commits, and the reported
department is the head of the fallback chain. -/
theorem committed_department_chain_witness :
    route entitiesW (normalizeEntities entitiesW "Asia/Kolkata" ⟨0, 0⟩) =
      Decision.commit (normalizeEntities entitiesW "Asia/Kolkata" ⟨0, 0⟩) ∧
    committedDepartment (normalizeEntities entitiesW "Asia/Kolkata" ⟨0, 0⟩) entitiesW =
      ((normalizeEntities entitiesW "Asia/Kolkata" ⟨0, 0⟩).department <|>
        entitiesW.department).getD "General" := by
  have hconf : ¬(entitiesW.confidence < 6 / 10) := by norm_num [entitiesW]
  have hng : needsClarification entitiesW = false := by
    unfold needsClarification
    rw [if_neg hconf,
      if_neg (by decide :
        ¬((jsFalsyOpt entitiesW.date_phrase || jsFalsyOpt entitiesW.time_phrase ||
            jsFalsyOpt entitiesW.department) = true))]
    decide
  have hr : route entitiesW (normalizeEntities entitiesW "Asia/Kolkata" ⟨0, 0⟩) =
      Decision.commit (normalizeEntities entitiesW "Asia/Kolkata" ⟨0, 0⟩) := by
    unfold route
    rw [hng]
    simp only [Bool.false_eq_true, if_false]
    rw [if_neg (by decide :
      ¬((jsFalsyOpt (normalizeEntities entitiesW "Asia/Kolkata" ⟨0, 0⟩).date ||
          jsFalsyOpt (normalizeEntities entitiesW "Asia/Kolkata" ⟨0, 0⟩).time) = true))]
  exact ⟨hr, (committed_department_chain entitiesW "Asia/Kolkata" ⟨0, 0⟩ _ hr).1⟩

lemma nextWeekdayTarget_spec (phrase : Chars) (now : DateTime) (i : Nat)
    (hi : i < 7)
    (hfind : weekdayNamesJS.findIdx? (fun d => strHas phrase d.data) = some i) :
    ∃ t, nextWeekdayTarget phrase now = some t ∧ now.day < t.day ∧
      t.day ≤ now.day + 7 ∧ weekdayOf t.day = (i : Int) ∧ t.mins = 0 := by
  have h0 : (0 : Int) ≤ (now.day + 4) % 7 := Int.emod_nonneg _ (by norm_num)
  have h7 : (now.day + 4) % 7 < 7 := Int.emod_lt_of_pos _ (by norm_num)
  unfold nextWeekdayTarget
  rw [hfind]
  dsimp only
  refine ⟨_, rfl, ?_, ?_, ?_, rfl⟩ <;>
  · simp only [addDaysDT, startOfDayDT, weekdayOf]
    split_ifs with hd <;> omega

lemma dateTarget_next_eq (raw : String) (phrase : Chars) (now : DateTime)
    (h1 : hasStr phrase "today" = false) (h2 : hasStr phrase "tomorrow" = false)
    (h3 : hasStr phrase "day after tomorrow" = false)
    (h4 : hasStr phrase "next" = true) :
    dateTarget raw phrase now = nextWeekdayTarget phrase now := by
  unfold dateTarget
  rw [h1, h2, h3, h4]
  simp

lemma normalizeDatePhrase_next (p : String) (tz : String) (now : DateTime)
    (i : Nat) (phrase : Chars) (hi : i < 7)
    (hp : jsLowerTrim p = phrase) (hne : phrase ≠ [])
    (h1 : hasStr phrase "today" = false) (h2 : hasStr phrase "tomorrow" = false)
    (h3 : hasStr phrase "day after tomorrow" = false)
    (h4 : hasStr phrase "next" = true)
    (hfind : weekdayNamesJS.findIdx? (fun d => strHas phrase d.data) = some i) :
    ∃ di, normalizeDatePhrase (some p) tz now = some di ∧
      now.day < di.datetime.day ∧ di.datetime.day ≤ now.day + 7 ∧
      weekdayOf di.datetime.day = (i : Int) := by
  have hpe : (p == "") = false := by
    cases hq : p == ""
    · rfl
    · have hp0 : p = "" := by simpa using hq
      subst hp0
      exact absurd hp.symm hne
  obtain ⟨t, htg, hlt, hle, hwk, -⟩ := nextWeekdayTarget_spec phrase now i hi hfind
  unfold normalizeDatePhrase
  dsimp only
  rw [hpe]
  simp only [Bool.false_eq_true, if_false]
  rw [hp, dateTarget_next_eq p phrase now h1 h2 h3 h4, htg]
  exact ⟨⟨dateStrOfDay t.day, t⟩, rfl, hlt, hle, hwk⟩

/-- C6: for a phrase of the form `next <weekday>`, the parsed date is
strictly after the current local date, at most 7 days ahead, and falls on the
named weekday — the `(target - current)` difference is bumped by 7 when
non-positive. -/
theorem nextWeekday_strictly_ahead (p : String) (tz : String) (now : DateTime)
    (i : Nat) (hi : i < 7)
    (hp : jsLowerTrim p = ("next " ++ weekdayNamesJS.getD i "").data) :
    ∃ di, normalizeDatePhrase (some p) tz now = some di ∧
      now.day < di.datetime.day ∧ di.datetime.day ≤ now.day + 7 ∧
      weekdayOf di.datetime.day = (i : Int) := by
  interval_cases i <;>
  · exact normalizeDatePhrase_next p tz now _ _ (by norm_num) hp (by decide)
      (by decide) (by decide) (by decide) (by decide) (by decide)

/-- Witness for C6 at `"next friday"` from Thursday 1970-01-01: the result is
the very next day, a Friday. -/
theorem nextWeekday_strictly_ahead_witness :
    ∃ di, normalizeDatePhrase (some "next friday") "Asia/Kolkata" ⟨0, 0⟩ = some di ∧
      (0 : Int) < di.datetime.day ∧ di.datetime.day ≤ (0 : Int) + 7 ∧
      weekdayOf di.datetime.day = ((5 : Nat) : Int) :=
  nextWeekday_strictly_ahead "next friday" "Asia/Kolkata" ⟨0, 0⟩ 5 (by norm_num)
    (by decide)

/-- C10: the 24-hour pattern is searched first, so `"3:30pm"` parses as
03:30 (the meridiem suffix is ignored), and whenever the phrase contains a
digit-colon-two-digit substring the whole result is determined by that match
alone. -/
theorem time24_shadows_meridiem :
    normalizeTimePhrase (some "3:30pm") = some ⟨"03:30", 3, 30⟩ ∧
    ∀ (p : String) (h m : Nat), findTime24 (jsLowerTrim p) = some (h, m) →
      normalizeTimePhrase (some p) =
        if h < 24 ∧ m < 60 then some ⟨timeStr h m, h, m⟩ else none := by
  constructor
  · decide
  · intro p h m hf
    have hpe : (p == "") = false := by
      cases hq : p == ""
      · rfl
      · have hp0 : p = "" := by simpa using hq
        subst hp0
        rw [show jsLowerTrim "" = ([] : Chars) from rfl] at hf
        exact absurd hf (by simp [findTime24])
    unfold normalizeTimePhrase
    dsimp only
    rw [hpe]
    simp only [Bool.false_eq_true, if_false]
    rw [hf]
    by_cases h24 : h < 24 <;> by_cases h60 : m < 60 <;> simp [h24, h60]

/-- Witness for C10 on `"7:45pm"`: the 24-hour match `(7, 45)` alone fixes
the result. -/
theorem time24_shadows_meridiem_witness :
    normalizeTimePhrase (some "7:45pm") = some ⟨"07:45", 7, 45⟩ := by
  have h := time24_shadows_meridiem.2 "7:45pm" 7 45 (by decide)
  rw [h, if_pos (by norm_num : (7 : Nat) < 24 ∧ (45 : Nat) < 60)]
  decide

end Sched
